import Mathlib

/-!
Shallow embedding of the counters-and-anymap library:
the numeric cache (`src/include/Util/NumCache.h`), the type-erased map
equality and lookup surface (`src/include/MapTypeErasure/AnyMap.hpp`),
the frequency counter (`src/include/counterDetails/CounterImpl.hpp`)
and the conditional counter map
(`src/include/counterDetails/CounterMapImpl.hpp`).

Counts (`Count_t`, a C++ `double`) are modelled as exact rationals `ℚ`;
backing containers are modelled as association lists whose order is the
traversal order of the concrete container.
-/

namespace CountersLib

/-- Model of `NumCachePolicy` from `NumCache.h`. -/
inductive NumCachePolicy where
  | PERSISTENT
  | RELAXED
deriving DecidableEq, Repr

/-- Model of `NumCache<NumType>` from `NumCache.h`: one scalar, a policy and a
synchronized flag. -/
structure NumCache where
  value : ℚ
  cachePolicy : NumCachePolicy
  synched : Bool
deriving DecidableEq, Repr

namespace NumCache

/-- Model of `NumCache::set(value)`: stores the value and marks the cache synched. -/
def set (c : NumCache) (v : ℚ) : NumCache :=
  { c with value := v, synched := true }

/-- Model of `NumCache::get()`: the stored value if synched, the default (zero)
otherwise. -/
def get (c : NumCache) : ℚ :=
  if c.synched then c.value else 0

/-- Model of `NumCache::isSynched()`. -/
def isSynched (c : NumCache) : Bool :=
  c.synched

/-- Model of `NumCache::reset()`: marks the cache unsynched. -/
def reset (c : NumCache) : NumCache :=
  { c with synched := false }

/-- Model of `NumCache::operator+=(n)`: adds to the stored value under the
PERSISTENT policy, otherwise marks the cache unsynched. -/
def addAssign (c : NumCache) (n : ℚ) : NumCache :=
  if c.cachePolicy = .PERSISTENT then { c with value := c.value + n }
  else { c with synched := false }

/-- Model of `NumCache::operator-=(n)`. -/
def subAssign (c : NumCache) (n : ℚ) : NumCache :=
  if c.cachePolicy = .PERSISTENT then { c with value := c.value - n }
  else { c with synched := false }

/-- Model of `NumCache::operator*=(n)`. -/
def mulAssign (c : NumCache) (n : ℚ) : NumCache :=
  if c.cachePolicy = .PERSISTENT then { c with value := c.value * n }
  else { c with synched := false }

/-- Model of `NumCache::operator/=(n)`. -/
def divAssign (c : NumCache) (n : ℚ) : NumCache :=
  if c.cachePolicy = .PERSISTENT then { c with value := c.value / n }
  else { c with synched := false }

end NumCache

/-- The only exception of the map surface: `std::out_of_range` thrown by
`at()` (spec name: OutOfRange). -/
inductive MapError where
  | OutOfRange
deriving DecidableEq, Repr

section AnyMapModel

variable {K W : Type} [DecidableEq K]

/-- Model of `m_.find(k)` on a backing container modelled as an association list in
traversal order: the mapped value at the first entry for `k`, if any. -/
def anyFind (k : K) : List (K × W) → Option W
  | [] => none
  | p :: rest => if p.1 = k then some p.2 else anyFind k rest

/-- Model of `AnyMap::count(k) > 0`, the containment test on the backing container. -/
def containsKey (k : K) (l : List (K × W)) : Bool :=
  (anyFind k l).isSome

/-- Model of `AnyMap::at(k)` (mutable and const overloads have the same lookup
behaviour): the mapped value when present, `OutOfRange` otherwise. -/
def anyAt (k : K) (l : List (K × W)) : Except MapError W :=
  match anyFind k l with
  | some v => Except.ok v
  | none => Except.error MapError.OutOfRange

/-- Model of `AnyMap::operator[](k)`: the mapped value, inserting a
default-constructed value when the key is absent; returns the value read
together with the updated container. -/
def bracket [Inhabited W] (k : K) (l : List (K × W)) : W × List (K × W) :=
  match anyFind k l with
  | some v => (v, l)
  | none => (default, l ++ [(k, default)])

/-- Model of `AnyMap::erase(k)`: removes the entry for the key if present; returns
the removal count (1 or 0) together with the updated container. -/
def eraseKey (k : K) : List (K × W) → Nat × List (K × W)
  | [] => (0, [])
  | p :: rest =>
    if p.1 = k then (1, rest)
    else
      let r := eraseKey k rest
      (r.1, p :: r.2)

/-- The loop body of `MapConcept::operator==`: the `(key, value)` pair `p`
of the left operand is found, with an equal value, in the right operand. -/
def pairFoundIn [DecidableEq W] (b : List (K × W)) (p : K × W) : Bool :=
  match anyFind p.1 b with
  | some v => decide (v = p.2)
  | none => false

/-- Model of `MapConcept::operator==`: equal sizes, and every pair of the left
operand found with an equal value in the right operand. -/
def mapEqB [DecidableEq W] (a b : List (K × W)) : Bool :=
  decide (a.length = b.length) && a.all (pairFoundIn b)

/-- Model of `MapConcept::operator!=`. -/
def mapNeB [DecidableEq W] (a b : List (K × W)) : Bool :=
  !(mapEqB a b)

/-- The backing container holds at most one entry per key: the invariant
every concrete associative container of the capability contract provides. -/
@[reducible] def NodupKeys (l : List (K × W)) : Prop :=
  (l.map Prod.fst).Nodup

end AnyMapModel

/-- Model of `Counter<V>` from `CounterImpl.hpp`: a type-erased map from value to
count plus the owned cache of the total. -/
structure Counter (V : Type) where
  coreMap : List (V × ℚ)
  cachedTotal : NumCache
deriving DecidableEq, Repr

namespace Counter

variable {V : Type} [DecidableEq V]

/-- Model of `Counter<V>::Counter()`: empty map, cache synchronized at 0 under the
RELAXED policy. -/
def mkEmpty : Counter V :=
  ⟨[], ⟨0, .RELAXED, true⟩⟩

/-- Model of `coreMap_[val] += count`: adds to the first entry for `val`, creating
the entry (at the default count 0) when absent. -/
def bracketAdd : List (V × ℚ) → V → ℚ → List (V × ℚ)
  | [], v, d => [(v, d)]
  | p :: rest, v, d =>
    if p.1 = v then (p.1, p.2 + d) :: rest else p :: bracketAdd rest v d

/-- Model of `coreMap_[val]` made to hold exactly `count`: overwrites the first
entry for `val`, creating the entry when absent. -/
def bracketPut : List (V × ℚ) → V → ℚ → List (V × ℚ)
  | [], v, a => [(v, a)]
  | p :: rest, v, a =>
    if p.1 = v then (p.1, a) :: rest else p :: bracketPut rest v a

/-- Model of `Counter::incrementCount(val, count)`: upserts the count and
compound-adds the amount to the cache. -/
def incrementCount (c : Counter V) (v : V) (d : ℚ) : Counter V :=
  ⟨bracketAdd c.coreMap v d, c.cachedTotal.addAssign d⟩

/-- Model of `Counter::setCount(val, count)`: `operator[]` materializes the stored
count (0 when absent), the cache is compound-added the difference, then
the stored count becomes `count`. -/
def setCount (c : Counter V) (v : V) (a : ℚ) : Counter V :=
  ⟨bracketPut c.coreMap v a,
    c.cachedTotal.addAssign (a - (anyFind v c.coreMap).getD 0)⟩

/-- Model of `Counter::remove(val)`: when present, compound-subtracts the former
count from the cache and erases the entry; otherwise does nothing. -/
def remove (c : Counter V) (v : V) : Counter V :=
  match anyFind v c.coreMap with
  | some cnt => ⟨(eraseKey v c.coreMap).2, c.cachedTotal.subAssign cnt⟩
  | none => c

/-- The sum of all stored counts (the traversal of `Counter::totalCount`). -/
def sumCounts (l : List (V × ℚ)) : ℚ :=
  (l.map Prod.snd).sum

/-- Model of `Counter::totalCount()`: the cached value when synched, otherwise the
re-summed total stored back via `set`; returns the result together with
the counter as the call leaves it (the cache is mutable through const). -/
def totalCount (c : Counter V) : ℚ × Counter V :=
  if c.cachedTotal.isSynched then (c.cachedTotal.get, c)
  else
    let cache := c.cachedTotal.set (sumCounts c.coreMap)
    (cache.get, ⟨c.coreMap, cache⟩)

/-- Model of `std::numeric_limits<double>::min()`: the smallest positive normal
double, the initial comparison bound of `Counter::maxValue`. -/
def dblMin : ℚ :=
  1 / 2 ^ 1022

/-- The traversal loop of `Counter::maxValue`: records a value only when
its count strictly exceeds the running bound. -/
def maxValLoop : List (V × ℚ) → Option V → ℚ → Option V
  | [], best, _ => best
  | p :: rest, best, m =>
    if p.2 > m then maxValLoop rest (some p.1) p.2
    else maxValLoop rest best m

/-- Model of `Counter::maxValue()`: the value recorded by the traversal, or the
default-constructed value when none was recorded. -/
def maxValue [Inhabited V] (c : Counter V) : V :=
  (maxValLoop c.coreMap none dblMin).getD default

/-- Model of `Counter::contains(val)`. -/
def contains (c : Counter V) (v : V) : Bool :=
  containsKey v c.coreMap

/-- Model of `Counter::getCount(val)`: the stored count, 0 when absent. -/
def getCount (c : Counter V) (v : V) : ℚ :=
  (anyFind v c.coreMap).getD 0

/-- Model of `Counter::size()`. -/
def size (c : Counter V) : Nat :=
  c.coreMap.length

/-- Model of `Counter::isTotalSynched()`. -/
def isTotalSynched (c : Counter V) : Bool :=
  c.cachedTotal.isSynched

/-- Model of `Counter::operator==`: delegates to the type-erased map equality of
the two core maps; the cache never participates. -/
def counterEqB (a b : Counter V) : Bool :=
  mapEqB a.coreMap b.coreMap

/-- Model of `Counter::operator+=(Counter)`: increments this counter by every
entry of the other, in traversal order. -/
def addCounter (c o : Counter V) : Counter V :=
  o.coreMap.foldl (fun acc p => acc.incrementCount p.1 p.2) c

/-- Model of `Counter::operator*=(count)`: multiplies every stored count and
compound-multiplies the cache. -/
def mulAssignScalar (c : Counter V) (n : ℚ) : Counter V :=
  ⟨c.coreMap.map (fun p => (p.1, p.2 * n)), c.cachedTotal.mulAssign n⟩

/-- Model of `Counter::operator/=(count)`: multiplication by the reciprocal. -/
def divAssignScalar (c : Counter V) (n : ℚ) : Counter V :=
  mulAssignScalar c (1 / n)

/-- Model of `Counter::normalize()`: reads `totalCount()`; when non-zero, divides
every count by it and forces the cache to Synchronized(1.0); otherwise
multiplies every count by zero and forces the cache to Synchronized(0). -/
def normalize (c : Counter V) : Counter V :=
  let r := totalCount c
  if r.1 ≠ 0 then
    let c2 := divAssignScalar r.2 r.1
    ⟨c2.coreMap, c2.cachedTotal.set 1⟩
  else
    let c2 := mulAssignScalar r.2 0
    ⟨c2.coreMap, c2.cachedTotal.set 0⟩

end Counter

/-- The public modifiers of `Counter` (used to state the cache-coherency
contract over call sequences). -/
inductive CounterOp (V : Type) where
  | inc (v : V) (d : ℚ)
  | set (v : V) (a : ℚ)
  | rem (v : V)
deriving DecidableEq, Repr

/-- Runs one modifier on a counter. -/
def applyOp {V : Type} [DecidableEq V] (c : Counter V) : CounterOp V → Counter V
  | .inc v d => c.incrementCount v d
  | .set v a => c.setCount v a
  | .rem v => c.remove v

/-- Runs a sequence of modifiers, left to right. -/
def runOps {V : Type} [DecidableEq V] (c : Counter V) (ops : List (CounterOp V)) : Counter V :=
  ops.foldl applyOp c

/-- A modifier that actually touches the cache in state `c`:
`incrementCount` and `setCount` always do, `remove` only when the value
is present. -/
def effectiveOp {V : Type} [DecidableEq V] (c : Counter V) : CounterOp V → Bool
  | .inc _ _ => true
  | .set _ _ => true
  | .rem v => c.contains v

/-- Some modifier of the sequence touches the cache at its point of
execution. -/
def anyEffective {V : Type} [DecidableEq V] (c : Counter V) : List (CounterOp V) → Bool
  | [] => false
  | op :: rest => effectiveOp c op || anyEffective (applyOp c op) rest

/-- Model of `CounterMap<K,V>` from `CounterMapImpl.hpp`: a type-erased map from
key to nested counter, the grand-total cache (always RELAXED), and the
counter the owned factory creates on each `createCounter()` call
(`DefaultCounterFactory` creates `Counter::Counter()`). -/
structure CounterMap (K V : Type) where
  coreMap : List (K × Counter V)
  cachedTotal : NumCache
  factory : Counter V
deriving DecidableEq, Repr

namespace CounterMap

variable {K V : Type} [DecidableEq K] [DecidableEq V]

/-- The default-constructed `CounterMap`: empty backing map, cache
`(0, RELAXED, unsynched)`, default counter factory. -/
def mkEmpty : CounterMap K V :=
  ⟨[], ⟨0, .RELAXED, false⟩, Counter.mkEmpty⟩

/-- Applies `f` to the nested counter at the first entry for `k`. -/
def updateNested : List (K × Counter V) → K → (Counter V → Counter V) →
    List (K × Counter V)
  | [], _, _ => []
  | p :: rest, k, f =>
    if p.1 = k then (p.1, f p.2) :: rest else p :: updateNested rest k f

/-- Model of `CounterMap::ensureCounter(key)` followed by the mutation `f` of the
returned nested counter: mutates in place when the key exists, otherwise
inserts the factory-created counter and mutates that. -/
def mutateAt (m : CounterMap K V) (k : K) (f : Counter V → Counter V) :
    CounterMap K V :=
  match anyFind k m.coreMap with
  | some _ => { m with coreMap := updateNested m.coreMap k f }
  | none => { m with coreMap := m.coreMap ++ [(k, f m.factory)] }

/-- Model of `CounterMap::incrementCount(key, val, count)`: ensure-and-delegate,
then reset the grand-total cache. -/
def incrementCount (m : CounterMap K V) (k : K) (v : V) (d : ℚ) :
    CounterMap K V :=
  let m1 := mutateAt m k (fun c => c.incrementCount v d)
  { m1 with cachedTotal := m1.cachedTotal.reset }

/-- Model of `CounterMap::setCount(key, val, count)`: ensure-and-delegate, then
reset the grand-total cache. -/
def setCount (m : CounterMap K V) (k : K) (v : V) (a : ℚ) : CounterMap K V :=
  let m1 := mutateAt m k (fun c => c.setCount v a)
  { m1 with cachedTotal := m1.cachedTotal.reset }

/-- Model of `CounterMap::remove(key)`: erases the whole nested counter; resets
the grand-total cache only when something was actually removed. -/
def removeKey (m : CounterMap K V) (k : K) : CounterMap K V :=
  let r := eraseKey k m.coreMap
  if r.1 > 0 then ⟨r.2, m.cachedTotal.reset, m.factory⟩
  else ⟨r.2, m.cachedTotal, m.factory⟩

/-- Model of `CounterMap::remove(key, val)`: when the key exists, delegates the
removal of `val` to the nested counter; the key itself stays, and the
grand-total cache is not touched. -/
def removeVal (m : CounterMap K V) (k : K) (v : V) : CounterMap K V :=
  match anyFind k m.coreMap with
  | some _ => { m with coreMap := updateNested m.coreMap k (fun c => c.remove v) }
  | none => m

/-- Model of `CounterMap::contains(key)`. -/
def contains (m : CounterMap K V) (k : K) : Bool :=
  containsKey k m.coreMap

/-- Model of `CounterMap::contains(key, val)`. -/
def containsVal (m : CounterMap K V) (k : K) (v : V) : Bool :=
  match anyFind k m.coreMap with
  | none => false
  | some c => c.contains v

/-- Model of `CounterMap::getCounter(key)`: a borrowed read-only view of the
nested counter, NULL (`none`) when the key is absent. -/
def getCounter (m : CounterMap K V) (k : K) : Option (Counter V) :=
  anyFind k m.coreMap

/-- Model of `CounterMap::size()`. -/
def size (m : CounterMap K V) : Nat :=
  m.coreMap.length

/-- Model of `CounterMap::size(key)`: the size of the nested counter, 0 for a NULL
counter. -/
def sizeKey (m : CounterMap K V) (k : K) : Nat :=
  match getCounter m k with
  | none => 0
  | some c => c.size

/-- Model of `CounterMap::getCount(key, val)`: delegates to the nested counter,
0 for a NULL counter. -/
def getCount (m : CounterMap K V) (k : K) (v : V) : ℚ :=
  match getCounter m k with
  | none => 0
  | some c => c.getCount v

/-- The loop of `CounterMap::totalCount()`: accumulates each nested
`totalCount()` (synchronizing the nested caches) in traversal order. -/
def totalLoop : List (K × Counter V) → ℚ → ℚ × List (K × Counter V)
  | [], acc => (acc, [])
  | p :: rest, acc =>
    let r := p.2.totalCount
    let r2 := totalLoop rest (acc + r.1)
    (r2.1, (p.1, r.2) :: r2.2)

/-- Model of `CounterMap::totalCount()`: the cached grand total when synched,
otherwise the sum of `totalCount()` over every nested counter, stored
back via `set`. -/
def totalCount (m : CounterMap K V) : ℚ × CounterMap K V :=
  if m.cachedTotal.isSynched then (m.cachedTotal.get, m)
  else
    let r := totalLoop m.coreMap 0
    let cache := m.cachedTotal.set r.1
    (cache.get, ⟨r.2, cache, m.factory⟩)

/-- Model of `CounterMap::operator+=`: for every entry of the right map in
traversal order, `ensureCounter(key) += nested counter`; the grand-total
cache is not touched. -/
def addAssign (m rhs : CounterMap K V) : CounterMap K V :=
  rhs.coreMap.foldl (fun acc p => mutateAt acc p.1 (fun c => c.addCounter p.2)) m

end CounterMap

/-- Model of `Counter::setCachePolicy(cachePolicy)` (callable through const: the
cache is mutable bookkeeping). -/
def Counter.setCachePolicy {V : Type} (c : Counter V) (p : NumCachePolicy) :
    Counter V :=
  ⟨c.coreMap, { c.cachedTotal with cachePolicy := p }⟩

/-- The sum of `totalCount()` over every nested counter: the quantity the
grand-total invariant of the conditional counter map speaks about. -/
def nestedTotalSum {K V : Type} [DecidableEq V] (m : CounterMap K V) : ℚ :=
  (m.coreMap.map (fun p => (Counter.totalCount p.2).1)).sum

/-- The counter {a:1, b:2, c:3} of the normalize example of the spec. -/
def counter123 : Counter String :=
  (((Counter.mkEmpty : Counter String).incrementCount "a" 1).incrementCount
    "b" 2).incrementCount "c" 3

/-- A counter holding `a` at count 5. -/
def counterA5 : Counter String :=
  (Counter.mkEmpty : Counter String).incrementCount "a" 5

/-- A non-empty counter whose only count is negative. -/
def negCounter : Counter String :=
  (Counter.mkEmpty : Counter String).incrementCount "a" (-1)

/-- A PERSISTENT counter synchronized at its exact sum 2. -/
def perSynced : Counter String :=
  ((Counter.mkEmpty : Counter String).setCachePolicy .PERSISTENT).incrementCount "a" 2

/-- C1 scenario: empty conditional map, then `setCount("x","v",1)`. -/
def cmScenarioBase : CounterMap String String :=
  (CounterMap.mkEmpty : CounterMap String String).setCount "x" "v" 1

/-- C1 scenario after `totalCount()` has synchronized the grand total. -/
def cmScenarioSynced : CounterMap String String :=
  (CounterMap.totalCount cmScenarioBase).2

/-- C1 scenario after a `remove("x","v")` that deletes a stored count. -/
def cmScenarioRemoved : CounterMap String String :=
  cmScenarioSynced.removeVal "x" "v"

/-- C1 scenario after `operator+=` merging the non-empty map {y:{w:2}}. -/
def cmScenarioMerged : CounterMap String String :=
  cmScenarioSynced.addAssign
    ((CounterMap.mkEmpty : CounterMap String String).setCount "y" "w" 2)

/-- C9 scenario: empty conditional map, then `setCount("x","v1",1)`. -/
def asymBase : CounterMap String String :=
  (CounterMap.mkEmpty : CounterMap String String).setCount "x" "v1" 1

/-- C9 scenario after `remove("x","v1")`. -/
def asymRemoved : CounterMap String String :=
  asymBase.removeVal "x" "v1"

/-- Cache well-formedness of a counter: when the cache reports
synchronized, its value is the exact sum of the stored counts. -/
def CacheExact {V : Type} (c : Counter V) : Prop :=
  c.cachedTotal.synched = true →
    c.cachedTotal.value = Counter.sumCounts c.coreMap

end CountersLib

namespace CountersLib

/-- C4: each compound-assign operator of `NumCache` applies the matching
arithmetic operation directly to the stored value and leaves the
synchronized flag unchanged under the PERSISTENT policy (so a
Synchronized cache stays Synchronized), and under the RELAXED policy
leaves the stored value unchanged while unconditionally transitioning
to Unsynchronized. -/
theorem numCache_compound_assign_spec (c : NumCache) (n : ℚ) :
    (c.cachePolicy = .PERSISTENT →
      (c.addAssign n).value = c.value + n ∧ (c.addAssign n).synched = c.synched ∧
      (c.subAssign n).value = c.value - n ∧ (c.subAssign n).synched = c.synched ∧
      (c.mulAssign n).value = c.value * n ∧ (c.mulAssign n).synched = c.synched ∧
      (c.divAssign n).value = c.value / n ∧ (c.divAssign n).synched = c.synched) ∧
    (c.cachePolicy = .RELAXED →
      (c.addAssign n).value = c.value ∧ (c.addAssign n).synched = false ∧
      (c.subAssign n).value = c.value ∧ (c.subAssign n).synched = false ∧
      (c.mulAssign n).value = c.value ∧ (c.mulAssign n).synched = false ∧
      (c.divAssign n).value = c.value ∧ (c.divAssign n).synched = false) := by
  constructor
  · intro h
    simp [NumCache.addAssign, NumCache.subAssign, NumCache.mulAssign,
      NumCache.divAssign, h]
  · intro h
    simp [NumCache.addAssign, NumCache.subAssign, NumCache.mulAssign,
      NumCache.divAssign, h]

/-- Witness for C4: the compound-assign specification instantiated at the
synchronized PERSISTENT cache holding 5, with scalar 3. -/
theorem numCache_compound_assign_spec_witness :
    ((⟨5, .PERSISTENT, true⟩ : NumCache).cachePolicy = .PERSISTENT) ∧
    ((⟨5, .PERSISTENT, true⟩ : NumCache).addAssign 3).value = 5 + 3 :=
  ⟨by decide,
    ((numCache_compound_assign_spec ⟨5, .PERSISTENT, true⟩ 3).1 (by decide)).1⟩

/-- On a container with at most one entry per key, `find` returns exactly
the stored value of any member pair. -/
theorem anyFind_eq_some_of_mem {K W : Type} [DecidableEq K]
    {b : List (K × W)} {k : K} {v : W}
    (hb : NodupKeys b) (hmem : (k, v) ∈ b) : anyFind k b = some v := by
  induction b with
  | nil => cases hmem
  | cons p rest ih =>
    rcases List.mem_cons.mp hmem with h | h
    · subst h
      simp [anyFind]
    · have hk : k ∈ rest.map Prod.fst :=
        List.mem_map.mpr ⟨(k, v), h, rfl⟩
      have hne : p.1 ≠ k := by
        intro hp
        have := (List.nodup_cons.mp hb).1
        exact this (hp ▸ hk)
      have hrest : NodupKeys rest := (List.nodup_cons.mp hb).2
      simp [anyFind, hne, ih hrest h]

/-- C7: wrapping two backing containers holding the same `(key, value)`
contents (the same pairs, in any traversal orders) in the type-erased map
yields equal wrappers, whatever concrete implementations the containers use;
in general `operator==` holds exactly when the sizes are equal and every
pair of the left operand is found with an equal value in the right
operand, and `operator!=` is its negation. -/
theorem anyMap_equality_spec {K W : Type} [DecidableEq K] [DecidableEq W]
    (a b : List (K × W)) (hb : NodupKeys b) :
    (List.Perm a b → mapEqB a b = true) ∧
    (mapEqB a b = true ↔
      (a.length = b.length ∧ ∀ p ∈ a, anyFind p.1 b = some p.2)) ∧
    mapNeB a b = !(mapEqB a b) := by
  have hiff : mapEqB a b = true ↔
      (a.length = b.length ∧ ∀ p ∈ a, anyFind p.1 b = some p.2) := by
    constructor
    · intro h
      unfold mapEqB at h
      rw [Bool.and_eq_true] at h
      rcases h with ⟨h1, h2⟩
      refine ⟨of_decide_eq_true h1, ?_⟩
      intro p hp
      have := (List.all_eq_true.mp h2) p hp
      unfold pairFoundIn at this
      cases hfind : anyFind p.1 b with
      | none => rw [hfind] at this; cases this
      | some v =>
        rw [hfind] at this
        have hv : v = p.2 := of_decide_eq_true this
        exact congrArg some hv
    · rintro ⟨h1, h2⟩
      unfold mapEqB
      rw [Bool.and_eq_true]
      refine ⟨decide_eq_true h1, ?_⟩
      apply List.all_eq_true.mpr
      intro p hp
      unfold pairFoundIn
      rw [h2 p hp]
      exact decide_eq_true rfl
  refine ⟨?_, hiff, rfl⟩
  intro hperm
  apply hiff.mpr
  refine ⟨hperm.length_eq, ?_⟩
  intro p hp
  have hpb : p ∈ b := hperm.mem_iff.mp hp
  exact anyFind_eq_some_of_mem hb hpb

/-- Witness for C7: two containers with the same three pairs in different
orders (a hashed order versus a tree order) compare equal through the
wrapper. -/
theorem anyMap_equality_spec_witness :
    mapEqB [(1, "x"), (2, "y"), (3, "z")] [(3, "z"), (1, "x"), (2, "y")]
      = true :=
  (anyMap_equality_spec [(1, "x"), (2, "y"), (3, "z")]
      [(3, "z"), (1, "x"), (2, "y")] (by decide)).1 (by decide)

/-- The two cache policies are distinct constructors (used to reduce the
policy tests of the embedded code). -/
theorem relaxed_ne_persistent :
    (NumCachePolicy.RELAXED = NumCachePolicy.PERSISTENT) = False :=
  eq_false (by decide)

/-- C1 (code bug): after `totalCount()` has synchronized the grand-total
cache at 1, `remove("x","v")` deletes the stored count without resetting
the grand-total cache, and `operator+=` merging a non-empty map does not
reset it either; the cache stays synchronized at the stale value 1 while
the sum of `totalCount()` over every nested counter is 0 (after the
remove) respectively 3 (after the merge), so the later `totalCount()`
returns the stale 1 instead of the true sum. -/
theorem counterMap_grand_total_goes_stale :
    cmScenarioRemoved.cachedTotal.isSynched = true ∧
    (CounterMap.totalCount cmScenarioRemoved).1 = 1 ∧
    nestedTotalSum cmScenarioRemoved = 0 ∧
    cmScenarioMerged.cachedTotal.isSynched = true ∧
    (CounterMap.totalCount cmScenarioMerged).1 = 1 ∧
    nestedTotalSum cmScenarioMerged = 3 := by
  simp +decide [relaxed_ne_persistent, cmScenarioRemoved, cmScenarioMerged,
    cmScenarioSynced, cmScenarioBase,
    nestedTotalSum, CounterMap.mkEmpty, CounterMap.setCount, CounterMap.mutateAt,
    CounterMap.removeVal, CounterMap.updateNested, CounterMap.totalCount,
    CounterMap.totalLoop, CounterMap.addAssign, Counter.addCounter, Counter.mkEmpty,
    Counter.setCount, Counter.incrementCount, Counter.remove, Counter.totalCount,
    Counter.sumCounts, Counter.bracketPut, Counter.bracketAdd, anyFind, eraseKey,
    NumCache.addAssign, NumCache.subAssign, NumCache.reset, NumCache.set,
    NumCache.get, NumCache.isSynched, containsKey]
  norm_num

/-- C3 (code bug): on the non-empty counter {a: -1} every stored count is
negative, and `maxValue()` returns the default-constructed value `""`
instead of the stored value `"a"` with the strictly greatest count: the
traversal bound starts at `std::numeric_limits<double>::min()`, the
smallest positive normal double, which no non-positive count exceeds. -/
theorem maxValue_nonpositive_counts_yield_default :
    negCounter.size = 1 ∧ negCounter.getCount "a" = -1 ∧
    negCounter.maxValue = "" := by
  norm_num [relaxed_ne_persistent, negCounter, Counter.mkEmpty,
    Counter.incrementCount, Counter.bracketAdd,
    Counter.size, Counter.getCount, Counter.maxValue, Counter.maxValLoop,
    Counter.dblMin, anyFind]

/-- Counterexample for C2: the claim says `isSynched()` is false whenever
the most recent call was a mutation, including a `remove` of an absent
value; but on the freshly constructed (synchronized) counter,
`remove("a")` is a complete no-op and the cache stays synchronized. -/
theorem remove_absent_leaves_cache_synched :
    ¬ (((Counter.mkEmpty : Counter String).remove "a").isTotalSynched
        = false) := by
  decide

/-- Counterexample for C10: on the counter {a:5}, `incrementCount(a, 1)`
followed by `incrementCount(a, -1)` leaves `getCount(a)` at the previous
count 5, not at 0 as the claim states for every counter. -/
theorem inc_then_dec_keeps_previous_count :
    ¬ ((((counterA5.incrementCount "a" 1).incrementCount "a"
        (-1)).getCount "a") = 0) := by
  norm_num [relaxed_ne_persistent, counterA5, Counter.mkEmpty,
    Counter.incrementCount, Counter.bracketAdd,
    Counter.getCount, anyFind]

/-- Model of `updateNested` touches only the nested counter of the matched entry:
key membership is untouched. -/
theorem anyFind_updateNested_isSome {K V : Type} [DecidableEq K] [DecidableEq V]
    (l : List (K × Counter V)) (k k' : K) (f : Counter V → Counter V) :
    (anyFind k' (CounterMap.updateNested l k f)).isSome
      = (anyFind k' l).isSome := by
  induction l with
  | nil => rfl
  | cons p rest ih =>
    rcases p with ⟨pk, pc⟩
    by_cases hk : pk = k
    · subst hk
      by_cases hk' : pk = k'
      · subst hk'
        simp [CounterMap.updateNested, anyFind]
      · simp [CounterMap.updateNested, anyFind, hk']
    · by_cases hk' : pk = k'
      · subst hk'
        simp [CounterMap.updateNested, anyFind, hk]
      · simp [CounterMap.updateNested, anyFind, hk, hk', ih]

/-- Every counter modifier preserves the caching policy. -/
theorem applyOp_cachePolicy {V : Type} [DecidableEq V] (c : Counter V)
    (op : CounterOp V) :
    (applyOp c op).cachedTotal.cachePolicy = c.cachedTotal.cachePolicy := by
  cases op with
  | inc v d =>
    simp only [applyOp, Counter.incrementCount, NumCache.addAssign]
    split <;> rfl
  | set v a =>
    simp only [applyOp, Counter.setCount, NumCache.addAssign]
    split <;> rfl
  | rem v =>
    simp only [applyOp, Counter.remove]
    cases anyFind v c.coreMap with
    | some cnt =>
      simp only [NumCache.subAssign]
      split <;> rfl
    | none => rfl

/-- Under the RELAXED policy, one modifier leaves the cache synchronized
exactly when it was synchronized before and the modifier did not touch
the cache. -/
theorem applyOp_synched_relaxed {V : Type} [DecidableEq V] (c : Counter V)
    (op : CounterOp V) (hpol : c.cachedTotal.cachePolicy = .RELAXED) :
    (applyOp c op).isTotalSynched
      = (c.isTotalSynched && !(effectiveOp c op)) := by
  cases op with
  | inc v d =>
    simp [applyOp, Counter.incrementCount, Counter.isTotalSynched,
      NumCache.isSynched, NumCache.addAssign, hpol, relaxed_ne_persistent,
      effectiveOp]
  | set v a =>
    simp [applyOp, Counter.setCount, Counter.isTotalSynched,
      NumCache.isSynched, NumCache.addAssign, hpol, relaxed_ne_persistent,
      effectiveOp]
  | rem v =>
    cases hfind : anyFind v c.coreMap with
    | some cnt =>
      simp [applyOp, Counter.remove, hfind, Counter.isTotalSynched,
        NumCache.isSynched, NumCache.subAssign, hpol, relaxed_ne_persistent,
        effectiveOp, Counter.contains, containsKey]
    | none =>
      simp [applyOp, Counter.remove, hfind, effectiveOp, Counter.contains,
        containsKey]

/-- Under the RELAXED policy, a run of modifiers leaves the cache
synchronized exactly when it was synchronized and no modifier of the run
touched the cache. -/
theorem runOps_synched_relaxed {V : Type} [DecidableEq V] (c : Counter V)
    (ops : List (CounterOp V))
    (hpol : c.cachedTotal.cachePolicy = .RELAXED) :
    (runOps c ops).isTotalSynched
      = (c.isTotalSynched && !(anyEffective c ops)) := by
  induction ops generalizing c with
  | nil => simp [runOps, anyEffective]
  | cons op rest ih =>
    have hpol2 : (applyOp c op).cachedTotal.cachePolicy = .RELAXED := by
      rw [applyOp_cachePolicy]
      exact hpol
    have hrun : runOps c (op :: rest) = runOps (applyOp c op) rest := rfl
    rw [hrun, ih _ hpol2, applyOp_synched_relaxed c op hpol]
    simp [anyEffective, Bool.and_assoc]

/-- Under the RELAXED policy, every modifier preserves cache
well-formedness: it either desynchronizes the cache or leaves the
counter untouched. -/
theorem applyOp_cacheExact_relaxed {V : Type} [DecidableEq V]
    (c : Counter V) (op : CounterOp V)
    (hpol : c.cachedTotal.cachePolicy = .RELAXED) (h : CacheExact c) :
    CacheExact (applyOp c op) := by
  cases op with
  | inc v d =>
    intro hs
    exfalso
    simp [applyOp, Counter.incrementCount, NumCache.addAssign, hpol,
      relaxed_ne_persistent] at hs
  | set v a =>
    intro hs
    exfalso
    simp [applyOp, Counter.setCount, NumCache.addAssign, hpol,
      relaxed_ne_persistent] at hs
  | rem v =>
    cases hfind : anyFind v c.coreMap with
    | some cnt =>
      intro hs
      exfalso
      simp [applyOp, Counter.remove, hfind, NumCache.subAssign, hpol,
        relaxed_ne_persistent] at hs
    | none =>
      simpa [applyOp, Counter.remove, hfind] using h

/-- Under the RELAXED policy, cache well-formedness is preserved by any
run of modifiers. -/
theorem runOps_cacheExact_relaxed {V : Type} [DecidableEq V]
    (c : Counter V) (ops : List (CounterOp V))
    (hpol : c.cachedTotal.cachePolicy = .RELAXED) (h : CacheExact c) :
    CacheExact (runOps c ops) := by
  induction ops generalizing c with
  | nil => exact h
  | cons op rest ih =>
    have hpol2 : (applyOp c op).cachedTotal.cachePolicy = .RELAXED := by
      rw [applyOp_cachePolicy]
      exact hpol
    exact ih _ hpol2 (applyOp_cacheExact_relaxed c op hpol h)

/-- On a well-formed counter, `totalCount()` returns the exact sum of the
stored counts and leaves the cache synchronized. -/
theorem totalCount_exact {V : Type} [DecidableEq V] (c : Counter V)
    (h : CacheExact c) :
    (Counter.totalCount c).1 = Counter.sumCounts c.coreMap ∧
    (Counter.totalCount c).2.isTotalSynched = true := by
  by_cases hs : c.cachedTotal.synched = true
  · simp [Counter.totalCount, NumCache.isSynched, hs, NumCache.get,
      Counter.isTotalSynched, h hs]
  · have hs2 : c.cachedTotal.synched = false := by
      cases hval : c.cachedTotal.synched with
      | false => rfl
      | true => exact absurd hval hs
    simp [Counter.totalCount, NumCache.isSynched, hs2, NumCache.set,
      NumCache.get, Counter.isTotalSynched]

/-- C2 (amended): for a RELAXED counter starting synchronized at its
exact sum, after any sequence of incrementCount/setCount/remove calls
with no intervening totalCount(), `isSynched()` is false exactly when
some call of the sequence actually touched the cache — every
incrementCount and setCount does, and a remove does if and only if the
removed value was present at its point of execution (a remove of an
absent value is a complete no-op and leaves the synchronization state
unchanged); and a call to totalCount() always leaves the cache
synchronized and returns the exact re-summed total of all stored
counts. -/
theorem counter_relaxed_cache_coherence {V : Type} [DecidableEq V]
    (c : Counter V) (ops : List (CounterOp V))
    (hpol : c.cachedTotal.cachePolicy = .RELAXED)
    (hsync : c.cachedTotal.synched = true)
    (hval : c.cachedTotal.value = Counter.sumCounts c.coreMap) :
    ((runOps c ops).isTotalSynched = !(anyEffective c ops)) ∧
    (Counter.totalCount (runOps c ops)).1
      = Counter.sumCounts (runOps c ops).coreMap ∧
    (Counter.totalCount (runOps c ops)).2.isTotalSynched = true := by
  have hexact : CacheExact c := fun _ => hval
  have hexact2 : CacheExact (runOps c ops) :=
    runOps_cacheExact_relaxed c ops hpol hexact
  have htc := totalCount_exact _ hexact2
  refine ⟨?_, htc.1, htc.2⟩
  rw [runOps_synched_relaxed c ops hpol]
  simp [Counter.isTotalSynched, NumCache.isSynched, hsync]

/-- Witness for C2: the freshly constructed RELAXED counter, run through
incrementCount("a",1) then remove("b") (the remove of an absent value):
the cache ends desynchronized because of the increment, and totalCount()
resynchronizes at the exact sum. -/
theorem counter_relaxed_cache_coherence_witness :
    ((Counter.mkEmpty : Counter String).cachedTotal.cachePolicy
        = .RELAXED) ∧
    ((runOps (Counter.mkEmpty : Counter String)
        [.inc "a" 1, .rem "b"]).isTotalSynched
      = !(anyEffective (Counter.mkEmpty : Counter String)
        [.inc "a" 1, .rem "b"])) :=
  ⟨rfl,
    (counter_relaxed_cache_coherence (Counter.mkEmpty : Counter String)
      [.inc "a" 1, .rem "b"] rfl rfl rfl).1⟩

/-- Overwriting the stored count of `v` changes the sum of counts by the
new count minus the previously stored one (0 when absent). -/
theorem sumCounts_bracketPut {V : Type} [DecidableEq V]
    (l : List (V × ℚ)) (v : V) (a : ℚ) :
    Counter.sumCounts (Counter.bracketPut l v a)
      = Counter.sumCounts l - (anyFind v l).getD 0 + a := by
  induction l with
  | nil =>
    simp [Counter.bracketPut, Counter.sumCounts, anyFind]
  | cons p rest ih =>
    by_cases hp : p.1 = v
    · simp [Counter.bracketPut, Counter.sumCounts, anyFind, hp]
      ring
    · simp [Counter.bracketPut, Counter.sumCounts, anyFind, hp] at ih ⊢
      rw [ih]
      ring

/-- C5: for a PERSISTENT counter whose cache is synchronized at S,
`incrementCount(v, d)` leaves `totalCount()` equal to exactly S + d with
no recomputation (the cache is still synchronized, and the query leaves
the counter untouched), and `setCount(v, a)` adjusts the cache by
(a minus the previously stored count of v, 0 when absent), so that when
S was the exact sum of the stored counts, `totalCount()` stays exactly
equal to the new sum of all stored counts. -/
theorem counter_persistent_exact_cache {V : Type} [DecidableEq V]
    (c : Counter V) (v : V) (d a S : ℚ)
    (hpol : c.cachedTotal.cachePolicy = .PERSISTENT)
    (hsync : c.cachedTotal.synched = true)
    (hS : c.cachedTotal.value = S) :
    ((Counter.totalCount (c.incrementCount v d)).1 = S + d ∧
      (Counter.totalCount (c.incrementCount v d)).2 = c.incrementCount v d ∧
      (c.incrementCount v d).isTotalSynched = true) ∧
    ((c.setCount v a).cachedTotal.value
        = S + (a - (anyFind v c.coreMap).getD 0)) ∧
    (S = Counter.sumCounts c.coreMap →
      (Counter.totalCount (c.setCount v a)).1
        = Counter.sumCounts (c.setCount v a).coreMap ∧
      (c.setCount v a).isTotalSynched = true) := by
  refine ⟨?_, ?_, ?_⟩
  · simp [Counter.incrementCount, NumCache.addAssign, hpol,
      Counter.totalCount, NumCache.isSynched, hsync, NumCache.get,
      Counter.isTotalSynched, hS]
  · simp [Counter.setCount, NumCache.addAssign, hpol, hS]
  · intro hsum
    have hcache : ∀ x : ℚ, c.cachedTotal.addAssign x
        = { value := c.cachedTotal.value + x,
            cachePolicy := c.cachedTotal.cachePolicy,
            synched := c.cachedTotal.synched } := by
      intro x
      simp [NumCache.addAssign, hpol]
    constructor
    · simp [Counter.totalCount, Counter.setCount, NumCache.isSynched, hcache,
        hsync, NumCache.get, sumCounts_bracketPut, hS, ← hsum]
      ring
    · simp [Counter.isTotalSynched, Counter.setCount, NumCache.isSynched,
        hcache, hsync]

/-- On `perSynced`, the cached value is exactly 2. -/
theorem perSynced_value : perSynced.cachedTotal.value = 2 := by
  norm_num [perSynced, Counter.mkEmpty, Counter.setCachePolicy,
    Counter.incrementCount, NumCache.addAssign]

/-- Witness for C5: the PERSISTENT counter synchronized at its sum 2,
incremented at "b" by 3: totalCount() reports 2 + 3. -/
theorem counter_persistent_exact_cache_witness :
    perSynced.cachedTotal.cachePolicy = .PERSISTENT ∧
    (Counter.totalCount (perSynced.incrementCount "b" 3)).1 = 2 + 3 :=
  ⟨rfl,
    ((counter_persistent_exact_cache perSynced "b" 3 0 2 rfl rfl
      perSynced_value).1).1⟩

/-- C6: `at()` fails with OutOfRange exactly when the key is absent and
otherwise returns the mapped value; every other lookup path —
`operator[]` (which default-inserts), `Counter::getCount`,
`CounterMap::getCount`, `CounterMap::getCounter` and the contains-style
paths — is total, returning a default, zero, NULL or false result for a
missing key instead of failing. -/
theorem lookup_paths_totality {K W A B : Type} [DecidableEq K]
    [DecidableEq A] [DecidableEq B] [Inhabited W]
    (l : List (K × W)) (k : K) (c : Counter A) (v : A)
    (m : CounterMap B A) (bk : B) :
    (anyAt k l = Except.error MapError.OutOfRange
      ↔ containsKey k l = false) ∧
    (∀ w : W, anyAt k l = Except.ok w ↔ anyFind k l = some w) ∧
    (containsKey k l = false →
      (bracket k l).1 = (default : W) ∧
      (bracket k l).2.length = l.length + 1) ∧
    (c.contains v = false → c.getCount v = 0) ∧
    (m.contains bk = false →
      m.getCounter bk = none ∧ m.getCount bk v = 0 ∧ m.sizeKey bk = 0 ∧
      m.containsVal bk v = false) := by
  refine ⟨?_, ?_, ?_, ?_, ?_⟩
  · cases hfind : anyFind k l with
    | some w => simp [anyAt, hfind, containsKey]
    | none => simp [anyAt, hfind, containsKey]
  · intro w
    cases hfind : anyFind k l with
    | some w2 => simp [anyAt, hfind, eq_comm]
    | none => simp [anyAt, hfind]
  · intro habs
    cases hfind : anyFind k l with
    | some w =>
      rw [containsKey, hfind] at habs
      cases habs
    | none => simp [bracket, hfind]
  · intro habs
    cases hfind : anyFind v c.coreMap with
    | some w =>
      rw [Counter.contains, containsKey, hfind] at habs
      cases habs
    | none => simp [Counter.getCount, hfind]
  · intro habs
    cases hfind : anyFind bk m.coreMap with
    | some w =>
      rw [CounterMap.contains, containsKey, hfind] at habs
      cases habs
    | none =>
      simp [CounterMap.getCounter, CounterMap.getCount, CounterMap.sizeKey,
        CounterMap.containsVal, hfind]

/-- Witness for C6: on the single-entry container {1 ↦ "x"}, looking up
the absent key 2 through `at()` raises OutOfRange. -/
theorem lookup_paths_totality_witness :
    containsKey 2 [(1, "x")] = false ∧
    anyAt 2 [(1, "x")] = Except.error MapError.OutOfRange :=
  ⟨rfl,
    (lookup_paths_totality [(1, "x")] 2 (Counter.mkEmpty : Counter String)
      "q" (CounterMap.mkEmpty : CounterMap Nat String) 7).1.mpr rfl⟩

/-- Model of `totalCount()` never changes the stored counts. -/
theorem totalCount_coreMap {V : Type} [DecidableEq V] (c : Counter V) :
    (Counter.totalCount c).2.coreMap = c.coreMap := by
  unfold Counter.totalCount
  split <;> rfl

/-- On a synchronized counter, `totalCount()` reads the cached value. -/
theorem totalCount_of_synched {V : Type} [DecidableEq V] (c : Counter V)
    (h : c.cachedTotal.synched = true) :
    (Counter.totalCount c).1 = c.cachedTotal.value := by
  simp [Counter.totalCount, NumCache.isSynched, h, NumCache.get]

/-- C8: `normalize()` re-reads `totalCount()`; when it is exactly zero
(an empty or all-zero counter included) every stored count is set to 0
and the cache is forced to Synchronized(0), not an error; otherwise
every stored count is divided by the total and the cache is forced to
Synchronized(1.0), so a later `totalCount()` is exactly 1. -/
theorem counter_normalize_spec {V : Type} [DecidableEq V] (c : Counter V) :
    ((Counter.totalCount c).1 = 0 →
      (Counter.normalize c).coreMap = c.coreMap.map (fun p => (p.1, 0)) ∧
      (Counter.normalize c).cachedTotal.value = 0 ∧
      (Counter.normalize c).cachedTotal.synched = true ∧
      (Counter.totalCount (Counter.normalize c)).1 = 0) ∧
    ((Counter.totalCount c).1 ≠ 0 →
      (Counter.normalize c).coreMap
        = c.coreMap.map (fun p => (p.1, p.2 / (Counter.totalCount c).1)) ∧
      (Counter.normalize c).cachedTotal.value = 1 ∧
      (Counter.normalize c).cachedTotal.synched = true ∧
      (Counter.totalCount (Counter.normalize c)).1 = 1) := by
  constructor
  · intro h0
    have hcm : (Counter.normalize c).coreMap
        = c.coreMap.map (fun p => (p.1, 0)) := by
      simp [Counter.normalize, h0, Counter.mulAssignScalar, totalCount_coreMap]
    have hct : (Counter.normalize c).cachedTotal
        = ((Counter.mulAssignScalar (Counter.totalCount c).2 0).cachedTotal).set
            0 := by
      simp [Counter.normalize, h0]
    have hsy : (Counter.normalize c).cachedTotal.synched = true := by
      rw [hct]
      simp [NumCache.set]
    refine ⟨hcm, ?_, hsy, ?_⟩
    · rw [hct]
      simp [NumCache.set]
    · rw [totalCount_of_synched _ hsy, hct]
      simp [NumCache.set]
  · intro h1
    have hcm : (Counter.normalize c).coreMap
        = c.coreMap.map (fun p => (p.1, p.2 / (Counter.totalCount c).1)) := by
      simp [Counter.normalize, h1, Counter.divAssignScalar,
        Counter.mulAssignScalar, totalCount_coreMap, mul_one_div,
        div_eq_mul_inv]
    have hct : (Counter.normalize c).cachedTotal
        = ((Counter.mulAssignScalar (Counter.totalCount c).2
            (1 / (Counter.totalCount c).1)).cachedTotal).set 1 := by
      simp [Counter.normalize, h1, Counter.divAssignScalar]
    have hsy : (Counter.normalize c).cachedTotal.synched = true := by
      rw [hct]
      simp [NumCache.set]
    refine ⟨hcm, ?_, hsy, ?_⟩
    · rw [hct]
      simp [NumCache.set]
    · rw [totalCount_of_synched _ hsy, hct]
      simp [NumCache.set]

/-- The total of the example counter of the spec {a:1, b:2, c:3} is 6, hence
non-zero. -/
theorem counter123_total_ne_zero : (Counter.totalCount counter123).1 ≠ 0 := by
  simp +decide [counter123, Counter.mkEmpty, Counter.incrementCount,
    Counter.bracketAdd, Counter.totalCount, Counter.sumCounts,
    NumCache.addAssign, NumCache.isSynched, NumCache.set, NumCache.get,
    relaxed_ne_persistent]
  norm_num

/-- Witness for C8: normalizing {a:1, b:2, c:3} divides every count by
the total 6 and leaves the cache synchronized at exactly 1. -/
theorem counter_normalize_spec_witness :
    (Counter.totalCount counter123).1 ≠ 0 ∧
    ((Counter.normalize counter123).coreMap
      = counter123.coreMap.map
          (fun p => (p.1, p.2 / (Counter.totalCount counter123).1)) ∧
     (Counter.normalize counter123).cachedTotal.value = 1 ∧
     (Counter.normalize counter123).cachedTotal.synched = true ∧
     (Counter.totalCount (Counter.normalize counter123)).1 = 1) :=
  ⟨counter123_total_ne_zero,
    (counter_normalize_spec counter123).2 counter123_total_ne_zero⟩

/-- C9: `remove(key, value)` delegates the removal to the nested counter
but never removes a key of the conditional counter map (key containment
is unchanged for every map, key and value); in the concrete run, after
`setCount("x","v1",1)` then `remove("x","v1")`, `contains("x")` is true
while `size("x")` is 0, and a subsequent `remove("x")` makes
`contains("x")` false. -/
theorem counterMap_remove_value_keeps_key {K V : Type} [DecidableEq K]
    [DecidableEq V] (m : CounterMap K V) (k k' : K) (v : V) :
    ((m.removeVal k v).contains k' = m.contains k') ∧
    asymRemoved.contains "x" = true ∧
    asymRemoved.sizeKey "x" = 0 ∧
    (asymRemoved.removeKey "x").contains "x" = false := by
  refine ⟨?_, by decide, by decide, by decide⟩
  unfold CounterMap.removeVal
  cases hfind : anyFind k m.coreMap with
  | none => rfl
  | some c =>
    simp only [CounterMap.contains, containsKey]
    exact anyFind_updateNested_isSome m.coreMap k k' _

/-- Incrementing at `v` stores, at `v`, the previous count (0 when
absent) plus the amount. -/
theorem anyFind_bracketAdd_self {V : Type} [DecidableEq V]
    (l : List (V × ℚ)) (v : V) (d : ℚ) :
    anyFind v (Counter.bracketAdd l v d)
      = some ((anyFind v l).getD 0 + d) := by
  induction l with
  | nil => simp [Counter.bracketAdd, anyFind]
  | cons p rest ih =>
    by_cases hp : p.1 = v
    · simp [Counter.bracketAdd, anyFind, hp]
    · simp [Counter.bracketAdd, anyFind, hp, ih]

/-- Overwriting at `v` stores exactly the new count at `v`. -/
theorem anyFind_bracketPut_self {V : Type} [DecidableEq V]
    (l : List (V × ℚ)) (v : V) (a : ℚ) :
    anyFind v (Counter.bracketPut l v a) = some a := by
  induction l with
  | nil => simp [Counter.bracketPut, anyFind]
  | cons p rest ih =>
    by_cases hp : p.1 = v
    · simp [Counter.bracketPut, anyFind, hp]
    · simp [Counter.bracketPut, anyFind, hp, ih]

/-- Model of `coreMap_[val] += count` grows the container by one entry exactly
when the value was absent. -/
theorem length_bracketAdd {V : Type} [DecidableEq V]
    (l : List (V × ℚ)) (v : V) (d : ℚ) :
    (Counter.bracketAdd l v d).length
      = if containsKey v l then l.length else l.length + 1 := by
  induction l with
  | nil => simp [Counter.bracketAdd, containsKey, anyFind]
  | cons p rest ih =>
    by_cases hp : p.1 = v
    · simp [Counter.bracketAdd, containsKey, anyFind, hp]
    · simp only [Counter.bracketAdd, hp, if_false, List.length_cons, ih,
        containsKey, anyFind]
      split <;> simp

/-- Model of `coreMap_[val] = count` grows the container by one entry exactly
when the value was absent. -/
theorem length_bracketPut {V : Type} [DecidableEq V]
    (l : List (V × ℚ)) (v : V) (a : ℚ) :
    (Counter.bracketPut l v a).length
      = if containsKey v l then l.length else l.length + 1 := by
  induction l with
  | nil => simp [Counter.bracketPut, containsKey, anyFind]
  | cons p rest ih =>
    by_cases hp : p.1 = v
    · simp [Counter.bracketPut, containsKey, anyFind, hp]
    · simp only [Counter.bracketPut, hp, if_false, List.length_cons, ih,
        containsKey, anyFind]
      split <;> simp

/-- Two containers of different sizes never compare equal. -/
theorem mapEqB_false_of_length_ne {K W : Type} [DecidableEq K]
    [DecidableEq W] (a b : List (K × W)) (h : a.length ≠ b.length) :
    mapEqB a b = false := by
  simp [mapEqB, h]

/-- A key outside the key list is never found. -/
theorem anyFind_eq_none_of_not_mem {K W : Type} [DecidableEq K]
    (l : List (K × W)) (k : K) (h : k ∉ l.map Prod.fst) :
    anyFind k l = none := by
  induction l with
  | nil => rfl
  | cons p rest ih =>
    rw [List.map_cons, List.mem_cons] at h
    push_neg at h
    have hp : p.1 ≠ k := fun hpk => h.1 hpk.symm
    simp [anyFind, hp, ih h.2]

/-- On a container with at most one entry per key, erasing a key makes
it unfindable. -/
theorem anyFind_eraseKey_self {K W : Type} [DecidableEq K]
    (l : List (K × W)) (k : K) (h : NodupKeys l) :
    anyFind k (eraseKey k l).2 = none := by
  induction l with
  | nil => rfl
  | cons p rest ih =>
    have hnd := List.nodup_cons.mp h
    by_cases hp : p.1 = k
    · subst hp
      simp only [eraseKey, if_pos rfl]
      exact anyFind_eq_none_of_not_mem rest p.1 hnd.1
    · simp only [eraseKey, hp, if_false, anyFind]
      exact ih hnd.2

/-- C10 (amended): frequency-counter entries are never removed
implicitly. For every counter with unique stored values: `setCount(v,0)`
leaves `v` present with count exactly 0; `incrementCount(v,d)` followed
by `incrementCount(v,-d)` leaves `v` present with its previous count
(0 when `v` was absent) — not unconditionally 0; in both runs `v` counts
toward `size()` (which grows by one exactly when `v` was absent); when
`v` was absent, the resulting counter is not `==` to the otherwise
identical counter that never stored `v`, because `operator==` compares
sizes first; and only `remove(v)` deletes the entry. -/
theorem counter_no_implicit_removal {V : Type} [DecidableEq V]
    (c : Counter V) (v : V) (d : ℚ) (hnd : NodupKeys c.coreMap) :
    ((c.setCount v 0).contains v = true ∧
      (c.setCount v 0).getCount v = 0 ∧
      (c.setCount v 0).size
        = (if c.contains v then c.size else c.size + 1)) ∧
    (((c.incrementCount v d).incrementCount v (-d)).contains v = true ∧
      ((c.incrementCount v d).incrementCount v (-d)).getCount v
        = c.getCount v ∧
      ((c.incrementCount v d).incrementCount v (-d)).size
        = (if c.contains v then c.size else c.size + 1)) ∧
    (c.contains v = false →
      Counter.counterEqB (c.setCount v 0) c = false ∧
      Counter.counterEqB ((c.incrementCount v d).incrementCount v (-d)) c
        = false) ∧
    (c.remove v).contains v = false := by
  have hput := anyFind_bracketPut_self c.coreMap v 0
  have hadd := anyFind_bracketAdd_self c.coreMap v d
  have hadd2 := anyFind_bracketAdd_self (Counter.bracketAdd c.coreMap v d) v
    (-d)
  refine ⟨⟨?_, ?_, ?_⟩, ⟨?_, ?_, ?_⟩, ?_, ?_⟩
  · simp [Counter.setCount, Counter.contains, containsKey, hput]
  · simp [Counter.setCount, Counter.getCount, hput]
  · simp [Counter.setCount, Counter.size, Counter.contains,
      length_bracketPut]
  · simp [Counter.incrementCount, Counter.contains, containsKey, hadd2]
  · simp [Counter.incrementCount, Counter.getCount, hadd2, hadd]
  · simp [Counter.incrementCount, Counter.size, Counter.contains,
      length_bracketAdd, containsKey, hadd]
  · intro habs
    have habs2 : containsKey v c.coreMap = false := habs
    have hnone : anyFind v c.coreMap = none := by
      cases hfind : anyFind v c.coreMap with
      | none => rfl
      | some w =>
        rw [containsKey, hfind] at habs2
        cases habs2
    constructor
    · apply mapEqB_false_of_length_ne
      simp [Counter.setCount, length_bracketPut, habs2]
    · apply mapEqB_false_of_length_ne
      simp [Counter.incrementCount, length_bracketAdd, containsKey, hadd,
        habs2, hnone]
  · cases hfind : anyFind v c.coreMap with
    | none => simp [Counter.remove, hfind, Counter.contains, containsKey]
    | some cnt =>
      simp [Counter.remove, hfind, Counter.contains, containsKey,
        anyFind_eraseKey_self c.coreMap v hnd]

/-- Witness for C10 (amended): on the counter {a:5} (unique values), the
increment pair at "a" leaves `getCount("a")` at the previous count 5. -/
theorem counter_no_implicit_removal_witness :
    NodupKeys counterA5.coreMap ∧
    ((counterA5.incrementCount "a" 1).incrementCount "a"
        (-1)).getCount "a" = counterA5.getCount "a" :=
  ⟨by decide,
    ((counter_no_implicit_removal counterA5 "a" 1 (by decide)).2).1.2.1⟩

end CountersLib
